import Mathlib

/-!
# Verification of the Adobe_Round2 heading/section extraction pipeline

A shallow embedding of the two Python programs of the repository:

* `src/adobe_hackathon_round1a/src/main.py` — `extract_document_outline`
  (title detection plus H1/H2/H3 outline extraction), and
* `src/adobe_hackathon_round1b/src/main.py` — `extract_document_sections`
  (title detection, heading classification, section accumulation),
  `clean_text_for_output`, and the scoring/ranking core of
  `analyze_document_collection` (relevance scoring of sections, global
  ranking, sentence-level variant selection).

Font sizes and scores are modelled as rationals (the Python floats carry
exact decimal values in all the scenarios considered here); strings are
Lean `String`s, with Python's whitespace conventions modelled through
`Char.isWhitespace`.  Low-level PDF parsing is external: a document is the
ordered list of raw text lines it yields, one record per visual line, with
font size, boldness, vertical position and page number, exactly the fields
the source reads off PyMuPDF.  The spaCy model is external as well: it is
modelled as an optional provider exposing a `hasVector` predicate and a
`sim`ilarity function, mirroring the only two capabilities the source uses.
-/

/-! ## Characters and Python-style string trimming -/

/-- `str.strip()` on the left: drop leading whitespace characters. -/
def dropLeadWS (cs : List Char) : List Char := cs.dropWhile Char.isWhitespace

/-- `str.strip()` on the right: drop trailing whitespace characters. -/
def dropTrailWS : List Char → List Char
  | [] => []
  | c :: cs =>
    let r := dropTrailWS cs
    if r.isEmpty then (if c.isWhitespace then [] else [c]) else c :: r

/-- Python `str.strip()` on a character list: trim whitespace from both
ends. -/
def pyStripList (cs : List Char) : List Char := dropTrailWS (dropLeadWS cs)

/-- Python `str.strip()`: trim whitespace from both ends. -/
def pyStrip (s : String) : String := String.mk (pyStripList s.data)

/-- Python `str.lower()` (ASCII case folding, which covers every string the
classifier compares). -/
def pyToLower (s : String) : String := String.mk (s.data.map Char.toLower)

/-- Counting `len(text.split())`: the Boolean records whether the previous
character belonged to a word, so each maximal non-whitespace run is counted
once. -/
def wordCountAux : Bool → List Char → Nat
  | _, [] => 0
  | inWord, c :: cs =>
    if c.isWhitespace then wordCountAux false cs
    else (if inWord then 0 else 1) + wordCountAux true cs

/-- Python `len(text.split())`: number of maximal non-whitespace runs. -/
def wordCount (s : String) : Nat := wordCountAux false s.data

/-- Python `text.split()`: the maximal non-whitespace runs, in order.  The
accumulator holds the current run reversed. -/
def pyWordsAux : List Char → List Char → List (List Char)
  | acc, [] => if acc.isEmpty then [] else [acc.reverse]
  | acc, c :: cs =>
    if c.isWhitespace then
      if acc.isEmpty then pyWordsAux [] cs else acc.reverse :: pyWordsAux [] cs
    else pyWordsAux (c :: acc) cs

/-- Python `text.split()` as strings. -/
def pyWords (s : String) : List String := (pyWordsAux [] s.data).map String.mk

/-- Python `text.split(' ')[0]`: the characters before the first space
(empty when the text starts with a space, like Python's first piece). -/
def firstSpaceTok (s : String) : String :=
  String.mk (s.data.takeWhile fun c => !(c == ' '))

/-- Python `text.endswith('.')`. -/
def endsWithDot (s : String) : Bool := s.data.getLast? == some '.'

/-! ## The regular expressions of `extract_document_sections`

`re.match(r'^[•\*-]\s*|^\d+\.\s*|^\d+\.\d+\s*$', tok)` (bullet / ordinal
suppression, line 121 of round 1b) and `re.match(r'^\d+(\.\d+)*\s*$', t)`
(bare dotted ordinal, line 141), translated alternative by alternative. -/

/-- Third alternative `^\d+\.\d+\s*$` of the bullet pattern: digits, a dot,
digits, then only whitespace up to the end of the token. -/
def bulletAltC (cs : List Char) : Bool :=
  let d1 := cs.takeWhile Char.isDigit
  match cs.dropWhile Char.isDigit with
  | '.' :: r2 =>
    let d2 := r2.takeWhile Char.isDigit
    let r3 := r2.dropWhile Char.isDigit
    !d1.isEmpty && !d2.isEmpty && r3.all Char.isWhitespace
  | _ => false

/-- The bullet/ordinal pattern applied to the line's first token:
`^[•\*-]\s*` (a leading bullet character; the `\s*` matches trivially), or
`^\d+\.\s*` (leading digits followed by a dot), or `^\d+\.\d+\s*$`. -/
def bulletTok (tok : String) : Bool :=
  let cs := tok.data
  (match cs.head? with
   | some c => c == '•' || c == '*' || c == '-'
   | none => false)
  || (!(cs.takeWhile Char.isDigit).isEmpty
        && ((cs.dropWhile Char.isDigit).head? == some '.'))
  || bulletAltC cs

/-- State machine for `^\d+(\.\d+)*\s*$`: `needDigit = true` right after the
start or after a dot (at least one digit required), `false` inside a digit
run (where a dot, more digits, or trailing whitespace may follow). -/
def dottedNumRun : Bool → List Char → Bool
  | needDigit, [] => !needDigit
  | needDigit, c :: cs =>
    if c.isDigit then dottedNumRun false cs
    else if needDigit then false
    else if c == '.' then dottedNumRun true cs
    else (c :: cs).all Char.isWhitespace

/-- `re.match(r'^\d+(\.\d+)*\s*$', text)`: a bare dotted ordinal such as
`"2."` or `"2.1"` with nothing else. -/
def dottedNum (s : String) : Bool := dottedNumRun true s.data

/-! ## Whitespace normalisation of section bodies

`" ".join(lines).strip()` followed by `re.sub(r'\n\s*\n', ' ', ...)` and
`re.sub(r'\s+', ' ', ...)` (round 1b, lines 149–152 and 174–176). -/

/-- The characters strictly after the last `'\n'` of a list, or `none` when
the list holds no `'\n'`.  Used to locate where a greedy `\n\s*\n` match
ends inside a whitespace run. -/
def afterLastNL : List Char → Option (List Char)
  | [] => none
  | c :: cs =>
    match afterLastNL cs with
    | some r => some r
    | none => if c == '\n' then some cs else none

/-- `re.sub(r'\n\s*\n', ' ', ·)`: scanning left to right, at each `'\n'` the
greedy `\s*` consumes the following whitespace run and backtracks to the
last `'\n'` inside it; the whole match is replaced by one space and the
scan resumes after it.  Fuel-indexed (each step consumes at least one
character, so `length + 1` fuel always suffices). -/
def sub1Fuel : Nat → List Char → List Char
  | 0, cs => cs
  | _ + 1, [] => []
  | f + 1, c :: cs =>
    if c == '\n' then
      match afterLastNL (cs.takeWhile Char.isWhitespace) with
      | some after => ' ' :: sub1Fuel f (after ++ cs.dropWhile Char.isWhitespace)
      | none => c :: sub1Fuel f cs
    else c :: sub1Fuel f cs

/-- `re.sub(r'\n\s*\n', ' ', ·)` with enough fuel for the whole input. -/
def subNLPair (cs : List Char) : List Char := sub1Fuel (cs.length + 1) cs

/-- `re.sub(r'\s+', ' ', ·)`: each maximal whitespace run becomes a single
space.  The Boolean argument records whether the previous character was
whitespace (i.e. whether a run is already open). -/
def collapseWS : Bool → List Char → List Char
  | _, [] => []
  | inRun, c :: cs =>
    if c.isWhitespace then
      if inRun then collapseWS true cs else ' ' :: collapseWS true cs
    else c :: collapseWS false cs

/-- Python `" ".join(texts)`, as a character list. -/
def joinWithSpace : List String → List Char
  | [] => []
  | [t] => t.data
  | t :: t2 :: ts => t.data ++ (' ' :: joinWithSpace (t2 :: ts))

/-- `final_content` of a closing section: join the buffered body lines with
single spaces, strip, then the two substitutions, in source order. -/
def normalizeJoin (texts : List String) : String :=
  String.mk (collapseWS false (subNLPair (pyStripList (joinWithSpace texts))))

/-! ## Shared data model -/

/-- Heading levels, decreasing prominence. -/
inductive Level
  | H1
  | H2
  | H3
deriving DecidableEq, Repr

/-- `level_order = {"H1": 1, "H2": 2, "H3": 3}` of both programs. -/
def lvlNum : Level → Nat
  | .H1 => 1
  | .H2 => 2
  | .H3 => 3

/-- One raw text line (round 1b) or text span (round 1a) as the ingestion
layer yields it: joined span text (not yet stripped), first-span font size
rounded to two decimals, boldness of the font name, top `y` coordinate, and
1-based page number. -/
structure SrcLine where
  text : String
  font_size : ℚ
  is_bold : Bool
  y0 : ℚ
  page : Nat
deriving DecidableEq, Repr

/-- Both programs strip each ingested text and skip it when empty
(`if not line_text: continue` / `if text:`). -/
def preprocessLines (raws : List SrcLine) : List SrcLine :=
  raws.filterMap fun r =>
    let t := pyStrip r.text
    if t == "" then none else some { r with text := t }

/-- `max_font_size`: single pass starting from `0.0`, updated on `>`. -/
def maxFontSize (ls : List SrcLine) : ℚ :=
  ls.foldl (fun m l => if m < l.font_size then l.font_size else m) 0

/-! ## A stable insertion sort

Python's `list.sort` is stable; both programs rely on that (title candidate
choice, per-document `(page, level)` ordering, global score ordering).
`sInsert`/`sSort` implement the unique stable sort for a strict precedence
predicate `lt`: an element is placed before every earlier-sorted element it
strictly precedes, and after the rest. -/

/-- Insert `x` into `l`, keeping every `y` with `lt y x` before `x`. -/
def sInsert (lt : α → α → Bool) (x : α) : List α → List α
  | [] => [x]
  | y :: ys => if lt y x then y :: sInsert lt x ys else x :: y :: ys

/-- Stable sort by the strict precedence predicate `lt`. -/
def sSort (lt : α → α → Bool) : List α → List α
  | [] => []
  | x :: xs => sInsert lt x (sSort lt xs)

/-! ## Round 1b: `extract_document_sections` -/

/-- The relative-threshold floor chain of round 1b (lines 73–85):
`h3 = max(0.60·max, 10.0·1.2)`, `h2 = max(0.75·max, h3·1.15)`,
`h1 = max(0.90·max, h2·1.1)`; returned as `(h1, h2, h3)`. -/
def r1bThresholds (maxf : ℚ) : ℚ × ℚ × ℚ :=
  let h3 := max (maxf * 0.60) (10.0 * 1.2)
  let h2 := max (maxf * 0.75) (h3 * 1.15)
  let h1 := max (maxf * 0.90) (h2 * 1.1)
  (h1, h2, h3)

/-- Title candidate sort key of both programs:
`key=lambda x: (-x['font_size'], x['bbox_y0'])`, as a strict precedence. -/
def ltTitle (a b : SrcLine) : Bool :=
  decide (b.font_size < a.font_size)
  || (decide (a.font_size = b.font_size) && decide (a.y0 < b.y0))

/-- Round 1b title detection (lines 87–104): among page-1 lines with
`font_size ≥ h1 ∧ word_count < 20 ∧ (bold ∨ font_size = max)`, pick by
`(-font_size, y0)`; remove every page-1 line with the exact title text.
If no candidate, fall back to the first line when it sits on page 1 and
drop just that line.  Nothing happens when page 1 has no lines. -/
def titleSplit (h1t maxf : ℚ) (lines : List SrcLine) : String × List SrcLine :=
  if lines.any (fun l => l.page == 1) then
    let cands := lines.filter fun l =>
      l.page == 1 && decide (h1t ≤ l.font_size) && decide (wordCount l.text < 20)
        && (l.is_bold || decide (l.font_size = maxf))
    match (sSort ltTitle cands).head? with
    | some c => (c.text, lines.filter fun l => !(l.text == c.text && l.page == 1))
    | none =>
      match lines.head? with
      | some l0 => if l0.page == 1 then (l0.text, lines.tail) else ("", lines)
      | none => ("", lines)
  else ("", lines)

/-- Round 1b heading classification of one line (lines 119–144): bullet
suppression below `h1`; then H1/H2/H3 by boldness, font threshold and word
count (H3 additionally must not end in a period); then the short/common
post-filter, which demotes bare dotted ordinals and short non-bold text. -/
def classifyLine (h1t h2t h3t : ℚ) (l : SrcLine) : Option Level :=
  if decide (l.font_size < h1t) && bulletTok (firstSpaceTok l.text) then none
  else
    let base : Option Level :=
      if l.is_bold && decide (h1t ≤ l.font_size) && decide (wordCount l.text < 15) then
        some .H1
      else if l.is_bold && decide (h2t ≤ l.font_size) && decide (wordCount l.text < 20) then
        some .H2
      else if decide (h3t ≤ l.font_size) && decide (wordCount l.text < 25)
          && !endsWithDot l.text then
        some .H3
      else none
    match base with
    | none => none
    | some v =>
      let t := pyStrip l.text
      if decide (t.length < 4)
          || (pyToLower t == "summary" || pyToLower t == "introduction"
                || pyToLower t == "conclusion") then
        if dottedNum t then none
        else if decide (t.length < 4) && !l.is_bold then none
        else some v
      else some v

/-- Open-section metadata: `current_section_meta`. -/
structure HeadMeta where
  level : Level
  text : String
  page : Nat
deriving DecidableEq, Repr

/-- A closed section of round 1b. -/
structure Section where
  level : Level
  text : String
  page : Nat
  full_content : String
deriving DecidableEq, Repr

/-- Closing a section: emit it only when the normalised body is
non-empty (`if final_content:`). -/
def closeSec (m : HeadMeta) (buf : List String) : List Section :=
  let c := normalizeJoin buf
  if c == "" then [] else [⟨m.level, m.text, m.page, c⟩]

/-- Close the open section, if any (`if current_section_meta is not None`). -/
def emitClose (cur : Option HeadMeta) (buf : List String) : List Section :=
  match cur with
  | none => []
  | some m => closeSec m buf

/-- The section accumulator (lines 107–184): a heading closes the open
section and opens a new one with an empty buffer; a body line is appended
to the buffer; the end of the stream closes the open section. -/
def accumGo (cls : SrcLine → Option Level) :
    List SrcLine → Option HeadMeta → List String → List Section
  | [], cur, buf => emitClose cur buf
  | l :: ls, cur, buf =>
    match cls l with
    | some v => emitClose cur buf ++ accumGo cls ls (some ⟨v, l.text, l.page⟩) []
    | none => accumGo cls ls cur (buf ++ [l.text])

/-- Final per-document sort key (line 186–187):
`(page, level_order[level])`, as a strict precedence. -/
def ltSec (a b : Section) : Bool :=
  decide (a.page < b.page)
  || (decide (a.page = b.page) && decide (lvlNum a.level < lvlNum b.level))

/-- The accumulator output of round 1b in emission order, before the final
`(page, level)` sort. -/
def extractUnsorted (raws : List SrcLine) : List Section :=
  let lines := preprocessLines raws
  let maxf := maxFontSize lines
  let th := r1bThresholds maxf
  accumGo (classifyLine th.1 th.2.1 th.2.2) (titleSplit th.1 maxf lines).2 none []

/-- The residual stream's heading-classified lines, in reading order. -/
def classifiedHeads (raws : List SrcLine) : List SrcLine :=
  let lines := preprocessLines raws
  let maxf := maxFontSize lines
  let th := r1bThresholds maxf
  (titleSplit th.1 maxf lines).2.filter fun l => (classifyLine th.1 th.2.1 th.2.2 l).isSome

/-- `extract_document_sections` of round 1b: empty documents short-circuit
to `("", [])`; otherwise title detection, classification, accumulation,
and the stable `(page, level)` sort. -/
def extract_document_sections (raws : List SrcLine) : String × List Section :=
  let lines := preprocessLines raws
  if lines.isEmpty then ("", [])
  else
    let maxf := maxFontSize lines
    let th := r1bThresholds maxf
    ((titleSplit th.1 maxf lines).1, sSort ltSec (extractUnsorted raws))

/-! ## Round 1a: `extract_document_outline` -/

/-- An outline entry of round 1a. -/
structure Entry where
  level : Level
  text : String
  page : Nat
deriving DecidableEq, Repr

/-- Outline sort key of round 1a (line 137–138), a strict precedence. -/
def ltEntry (a b : Entry) : Bool :=
  decide (a.page < b.page)
  || (decide (a.page = b.page) && decide (lvlNum a.level < lvlNum b.level))

/-- Greatest page number carrying a record; pages `1..maxPage` are walked
in ascending order, matching `for page_num in range(document.page_count)`
over the pages that hold text (empty pages contribute nothing). -/
def maxPage (recs : List SrcLine) : Nat :=
  recs.foldl (fun m r => max m r.page) 0

/-- One page of the round 1a heading loop (lines 92–132): skip records
below the minimum size or shorter than 3 characters, classify purely by
font thresholds, skip an H1 equal to the title on page 1, and de-duplicate
on `(text, page)` against everything collected so far. -/
def r1aStep (t1 t2 t3 minH : ℚ) (title : String) (p : Nat)
    (acc0 : List Entry) (recs : List SrcLine) : List Entry :=
  recs.foldl
    (fun acc r =>
      if decide (r.font_size < minH) || decide (r.text.length < 3) then acc
      else
        match
          (if decide (t1 ≤ r.font_size) then some Level.H1
           else if decide (t2 ≤ r.font_size) then some Level.H2
           else if decide (t3 ≤ r.font_size) then some Level.H3
           else none) with
        | none => acc
        | some lv =>
          if decide (lv = Level.H1) && decide (r.text = title) && decide (p = 1) then acc
          else if acc.any (fun e => decide (e.text = r.text) && decide (e.page = p)) then acc
          else acc ++ [⟨lv, r.text, p⟩])
    acc0

/-- `extract_document_outline` of round 1a: thresholds `0.95/0.80/0.65` of
the maximum font size with a `0.50` floor for consideration; title from
bold H1-sized page-1 records by `(-font_size, y0)`, else the first page-1
record; then the per-page heading loop and the stable `(page, level)`
sort. -/
def extract_document_outline (spans : List SrcLine) : String × List Entry :=
  let recs := preprocessLines spans
  let maxf := maxFontSize recs
  let t1 := maxf * 0.95
  let t2 := maxf * 0.80
  let t3 := maxf * 0.65
  let minH := maxf * 0.50
  let cands := recs.filter fun r =>
    r.page == 1 && decide (t1 ≤ r.font_size) && r.is_bold
  let title :=
    match (sSort ltTitle cands).head? with
    | some c => c.text
    | none =>
      match (recs.filter fun r => r.page == 1).head? with
      | some r0 => r0.text
      | none => ""
  let outline :=
    (List.range' 1 (maxPage recs)).foldl
      (fun acc p => r1aStep t1 t2 t3 minH title p acc (recs.filter fun r => r.page == p))
      []
  (title, sSort ltEntry outline)

/-! ## Relevance scoring and the similarity provider -/

/-- The two capabilities of the spaCy model the source uses: whether a text
yields a usable vectorised document (`nlp(text)` truthy with
`.has_vector`), and document similarity (cosine-like, so valued in
`[-1, 1]`).  The model itself is external; `Option NLP` plays the role of
the possibly-`None` global `nlp`. -/
structure NLP where
  hasVector : String → Bool
  sim : String → String → ℚ

/-- `nlp_has_vectors` (round 1b, lines 232–236): the model is loaded and
both the job task and the persona role embed to usable vectors. -/
def nlpHasVectors (opt : Option NLP) (job persona : String) : Bool :=
  match opt with
  | none => false
  | some p => p.hasVector job && p.hasVector persona

/-- The keyword set of the token-overlap variant: lowercase
whitespace-separated tokens of length `> 2`, de-duplicated (a Python
`set`). -/
def keywords (s : String) : List String :=
  ((pyWords (pyToLower s)).filter (fun w => decide (2 < w.length))).dedup

/-- Token-overlap score (lines 268–272 for sections, 309–312 for
sentences): `|job ∩ text| / |text keywords|`, or `0` without qualifying
tokens. -/
def tokenScore (job text : String) : ℚ :=
  let jk := keywords job
  let tk := keywords text
  if 0 < tk.length then ((tk.filter (fun w => jk.contains w)).length : ℚ) / tk.length
  else 0

/-- The branch condition of lines 260: the run has vectors and the section
content is a non-trivial document (modelled by its strip being
non-empty). -/
def sectionUsesVector (opt : Option NLP) (job persona content : String) : Bool :=
  nlpHasVectors opt job persona && !(pyStrip content == "")

/-- Weighted vector score of a section (lines 262–264):
`0.7·sim(content, job) + 0.3·sim(content, persona)`, each term `0` when the
corresponding query document is unusable. -/
def vectorScore (p : NLP) (job persona content : String) : ℚ :=
  0.7 * (if p.hasVector job then p.sim content job else 0)
  + 0.3 * (if p.hasVector persona then p.sim content persona else 0)

/-- `relevance_score` of one section (round 1b, lines 257–274). -/
def sectionScore (opt : Option NLP) (job persona content : String) : ℚ :=
  match opt with
  | none => tokenScore job content
  | some p =>
    if sectionUsesVector (some p) job persona content then vectorScore p job persona content
    else tokenScore job content

/-- The per-sentence branch condition of line 306: the sentence embeds to a
usable vector and so does the job task. -/
def sentenceUsesVector (opt : Option NLP) (job sent : String) : Bool :=
  match opt with
  | none => false
  | some p => p.hasVector sent && p.hasVector job

/-- Per-sentence score inside the refinement loop (lines 304–313): vector
similarity to the job when available, token overlap otherwise. -/
def sentenceScore (opt : Option NLP) (job sent : String) : ℚ :=
  match opt with
  | none => tokenScore job sent
  | some p =>
    if p.hasVector sent && p.hasVector job then p.sim sent job else tokenScore job sent

/-! ## Collection-level ranking -/

/-- A section tagged with its document and relevance score, as assembled in
`all_sections_for_processing`. -/
structure ScoredSec where
  document : String
  level : Level
  text : String
  page : Nat
  content : String
  score : ℚ
deriving Repr

/-- Extract and score every document of the collection, in descriptor
order (lines 241–275). -/
def collectAndScore (opt : Option NLP) (job persona : String)
    (docs : List (String × List SrcLine)) : List ScoredSec :=
  (docs.map fun d =>
    ((extract_document_sections d.2).2).map fun s =>
      ⟨d.1, s.level, s.text, s.page, s.full_content,
        sectionScore opt job persona s.full_content⟩).flatten

/-- Global sort key `key=lambda x: x["relevance_score"], reverse=True`,
as a strict precedence. -/
def ltScore (a b : ScoredSec) : Bool := decide (b.score < a.score)

/-- `enumerate` with `importance_rank = i + 1`. -/
def withRanksFrom (n : Nat) : List α → List (α × Nat)
  | [] => []
  | x :: xs => (x, n) :: withRanksFrom (n + 1) xs

/-- The globally ranked sections of a collection (lines 277–293). -/
def rankedSections (opt : Option NLP) (job persona : String)
    (docs : List (String × List SrcLine)) : List (ScoredSec × Nat) :=
  withRanksFrom 1 (sSort ltScore (collectAndScore opt job persona docs))

/-! ## Concrete inputs used by the scenario claims and witnesses -/

/-- The five-line page-1 scenario of the specification (`max_font_size =
24`). -/
def c2Lines : List SrcLine :=
  [⟨"Report Title", 24, true, 0, 1⟩,
   ⟨"Introduction", 20, true, 1, 1⟩,
   ⟨"This is the intro body.", 12, false, 2, 1⟩,
   ⟨"Methods", 20, true, 3, 1⟩,
   ⟨"Method body text.", 12, false, 4, 1⟩]

/-- A document whose page 2 carries an H2 heading before an H1 heading,
both with bodies that share no keyword with the job task. -/
def c3Lines : List SrcLine :=
  [⟨"T", 30, true, 0, 1⟩,
   ⟨"Bravo Item", 24, true, 0, 2⟩,
   ⟨"alpha beta gamma", 10, false, 1, 2⟩,
   ⟨"Alpha Item", 27, true, 2, 2⟩,
   ⟨"delta epsilon", 10, false, 3, 2⟩]

/-- A one-collection descriptor holding only the `c3Lines` document. -/
def c3Docs : List (String × List SrcLine) := [("d.pdf", c3Lines)]

/-- Two heading-only lines (under thresholds `27/22.5/18`), for the
zero-sections witness. -/
def c5Lines : List SrcLine :=
  [⟨"Bravo Item", 24, true, 0, 2⟩, ⟨"Alpha Item", 27, true, 2, 2⟩]

/-- A two-span round 1a document: a bold title-sized span and one H2. -/
def c7Spans : List SrcLine :=
  [⟨"Title", 24, true, 0, 1⟩, ⟨"Head", 20, true, 1, 1⟩]

/-- A provider that embeds everything with constant similarity `1`. -/
def nlpAll : NLP := ⟨fun _ => true, fun _ _ => 1⟩

/-- A provider that embeds every text except `"qqq"`, with constant
similarity `1`. -/
def nlpNotQqq : NLP := ⟨fun s => !(s == "qqq"), fun _ _ => 1⟩

/-- A provider whose similarity is constantly `-1` — the extreme of the
cosine range `[-1, 1]`. -/
def nlpNeg : NLP := ⟨fun _ => true, fun _ _ => -1⟩

/-! ## Theory of the stable insertion sort -/

theorem sInsert_cons_pos (lt : α → α → Bool) (x y : α) (ys : List α)
    (h : lt y x = true) : sInsert lt x (y :: ys) = y :: sInsert lt x ys := by
  simp [sInsert, h]

theorem sInsert_cons_neg (lt : α → α → Bool) (x y : α) (ys : List α)
    (h : lt y x = false) : sInsert lt x (y :: ys) = x :: y :: ys := by
  simp [sInsert, h]

theorem mem_sInsert (lt : α → α → Bool) (x a : α) (l : List α) :
    a ∈ sInsert lt x l ↔ a = x ∨ a ∈ l := by
  induction l with
  | nil => simp [sInsert]
  | cons y ys ih =>
    cases h : lt y x with
    | true =>
      rw [sInsert_cons_pos lt x y ys h]
      simp only [List.mem_cons, ih]
      tauto
    | false =>
      rw [sInsert_cons_neg lt x y ys h]
      simp only [List.mem_cons]

theorem mem_sSort (lt : α → α → Bool) (a : α) (l : List α) :
    a ∈ sSort lt l ↔ a ∈ l := by
  induction l with
  | nil => simp [sSort]
  | cons x xs ih => simp [sSort, mem_sInsert, ih]

theorem length_sInsert (lt : α → α → Bool) (x : α) (l : List α) :
    (sInsert lt x l).length = l.length + 1 := by
  induction l with
  | nil => simp [sInsert]
  | cons y ys ih =>
    cases h : lt y x with
    | true => rw [sInsert_cons_pos lt x y ys h]; simp [ih]
    | false => rw [sInsert_cons_neg lt x y ys h]; simp

theorem length_sSort (lt : α → α → Bool) (l : List α) :
    (sSort lt l).length = l.length := by
  induction l with
  | nil => rfl
  | cons x xs ih => simp [sSort, length_sInsert, ih]

theorem filter_sInsert_pos (lt : α → α → Bool) (q : α → Bool) (x : α) (l : List α)
    (hx : q x = true) (hq : ∀ y, q y = true → lt y x = false) :
    (sInsert lt x l).filter q = x :: l.filter q := by
  induction l with
  | nil => simp [sInsert, hx]
  | cons y ys ih =>
    cases h : lt y x with
    | true =>
      have hy : q y = false := by
        by_contra hqy
        have := hq y (by revert hqy; cases q y <;> simp)
        rw [this] at h
        exact Bool.false_ne_true h
      rw [sInsert_cons_pos lt x y ys h]
      simp [List.filter_cons, hy, ih]
    | false =>
      rw [sInsert_cons_neg lt x y ys h]
      simp [List.filter_cons, hx]

theorem filter_sInsert_neg (lt : α → α → Bool) (q : α → Bool) (x : α) (l : List α)
    (hx : q x = false) :
    (sInsert lt x l).filter q = l.filter q := by
  induction l with
  | nil => simp [sInsert, hx]
  | cons y ys ih =>
    cases h : lt y x with
    | true => rw [sInsert_cons_pos lt x y ys h]; simp [List.filter_cons, ih]
    | false => rw [sInsert_cons_neg lt x y ys h]; simp [List.filter_cons, hx]

theorem filter_sSort (lt : α → α → Bool) (q : α → Bool) (l : List α)
    (hq : ∀ y z, q y = true → q z = true → lt y z = false) :
    (sSort lt l).filter q = l.filter q := by
  induction l with
  | nil => rfl
  | cons x xs ih =>
    by_cases hx : q x = true
    · rw [sSort, filter_sInsert_pos lt q x _ hx (fun y hy => hq y x hy hx), ih,
        List.filter_cons, if_pos hx]
    · have hx' : q x = false := by revert hx; cases q x <;> simp
      rw [sSort, filter_sInsert_neg lt q x _ hx', ih, List.filter_cons]
      simp [hx']

theorem pairwise_sInsert (lt : α → α → Bool)
    (hasym : ∀ a b, lt a b = true → lt b a = false)
    (htrans : ∀ a b c, lt b a = false → lt c b = false → lt c a = false)
    (x : α) (l : List α) (hl : l.Pairwise (fun a b => lt b a = false)) :
    (sInsert lt x l).Pairwise (fun a b => lt b a = false) := by
  induction l with
  | nil => simp [sInsert]
  | cons y ys ih =>
    rw [List.pairwise_cons] at hl
    obtain ⟨hy, hys⟩ := hl
    cases h : lt y x with
    | true =>
      rw [sInsert_cons_pos lt x y ys h, List.pairwise_cons]
      refine ⟨?_, ih hys⟩
      intro z hz
      rcases (mem_sInsert lt x z ys).1 hz with rfl | hz'
      · exact hasym y z h
      · exact hy z hz'
    | false =>
      rw [sInsert_cons_neg lt x y ys h, List.pairwise_cons]
      refine ⟨?_, List.pairwise_cons.2 ⟨hy, hys⟩⟩
      intro z hz
      rcases List.mem_cons.1 hz with rfl | hz'
      · exact h
      · exact htrans x y z h (hy z hz')

theorem pairwise_sSort (lt : α → α → Bool)
    (hasym : ∀ a b, lt a b = true → lt b a = false)
    (htrans : ∀ a b c, lt b a = false → lt c b = false → lt c a = false)
    (l : List α) :
    (sSort lt l).Pairwise (fun a b => lt b a = false) := by
  induction l with
  | nil => simp [sSort]
  | cons x xs ih => exact pairwise_sInsert lt hasym htrans x _ ih

/-! ## Theory of the section accumulator -/

theorem normalizeJoin_nil : normalizeJoin [] = "" := by decide

theorem mem_emitClose (cur : Option HeadMeta) (buf : List String) (s : Section)
    (hs : s ∈ emitClose cur buf) :
    ∃ m, cur = some m ∧ s.level = m.level ∧ s.text = m.text ∧ s.page = m.page
      ∧ s.full_content = normalizeJoin buf ∧ ¬normalizeJoin buf = "" := by
  cases cur with
  | none => simp [emitClose] at hs
  | some m =>
    simp only [emitClose, closeSec] at hs
    split at hs
    · simp at hs
    · rename_i hne
      simp only [List.mem_singleton] at hs
      subst hs
      exact ⟨m, rfl, rfl, rfl, rfl, rfl, by simpa using hne⟩

theorem emitClose_length_le (cur : Option HeadMeta) (buf : List String) :
    (emitClose cur buf).length ≤ (match cur with | none => 0 | some _ => 1) := by
  cases cur with
  | none => simp [emitClose]
  | some m =>
    simp only [emitClose, closeSec]
    split <;> simp

theorem accum_length_le (cls : SrcLine → Option Level) :
    ∀ (ls : List SrcLine) (cur : Option HeadMeta) (buf : List String),
    (accumGo cls ls cur buf).length ≤
      (ls.filter fun l => (cls l).isSome).length
        + (match cur with | none => 0 | some _ => 1) := by
  intro ls
  induction ls with
  | nil =>
    intro cur buf
    simpa [accumGo] using emitClose_length_le cur buf
  | cons l ls ih =>
    intro cur buf
    cases hc : cls l with
    | some v =>
      simp only [accumGo, hc, List.filter_cons, Option.isSome_some, if_true,
        List.length_append, List.length_cons]
      have h1 := emitClose_length_le cur buf
      have h2 := ih (some ⟨v, l.text, l.page⟩) []
      simp only [List.length_append] at h2 ⊢
      cases cur <;> simp [emitClose] at h1 ⊢ <;> omega
    | none =>
      simp only [accumGo, hc, List.filter_cons, Option.isSome_none]
      simpa using ih cur (buf ++ [l.text])

theorem accum_src (cls : SrcLine → Option Level) :
    ∀ (ls : List SrcLine) (cur : Option HeadMeta) (buf : List String) (s : Section),
    s ∈ accumGo cls ls cur buf →
      (∃ b, s.full_content = normalizeJoin b ∧ ¬normalizeJoin b = "")
        ∧ ((∃ m, cur = some m ∧ s.level = m.level ∧ s.text = m.text ∧ s.page = m.page)
            ∨ (∃ l, l ∈ ls ∧ cls l = some s.level ∧ s.text = l.text ∧ s.page = l.page)) := by
  intro ls
  induction ls with
  | nil =>
    intro cur buf s hs
    simp only [accumGo] at hs
    obtain ⟨m, hm, h1, h2, h3, h4, h5⟩ := mem_emitClose cur buf s hs
    exact ⟨⟨buf, h4, h5⟩, Or.inl ⟨m, hm, h1, h2, h3⟩⟩
  | cons l ls ih =>
    intro cur buf s hs
    cases hc : cls l with
    | some v =>
      simp only [accumGo, hc] at hs
      rcases List.mem_append.1 hs with h | h
      · obtain ⟨m, hm, h1, h2, h3, h4, h5⟩ := mem_emitClose cur buf s h
        exact ⟨⟨buf, h4, h5⟩, Or.inl ⟨m, hm, h1, h2, h3⟩⟩
      · obtain ⟨hcontent, hmeta⟩ := ih (some ⟨v, l.text, l.page⟩) [] s h
        refine ⟨hcontent, Or.inr ?_⟩
        rcases hmeta with ⟨m, hm, h1, h2, h3⟩ | ⟨l', hl', h1, h2, h3⟩
        · refine ⟨l, List.mem_cons_self l ls, ?_, ?_, ?_⟩
          · injection hm with hm'
            rw [h1, ← hm']
            exact hc
          · injection hm with hm'
            rw [h2, ← hm']
          · injection hm with hm'
            rw [h3, ← hm']
        · exact ⟨l', List.mem_cons_of_mem l hl', h1, h2, h3⟩
    | none =>
      simp only [accumGo, hc] at hs
      obtain ⟨hcontent, hmeta⟩ := ih cur (buf ++ [l.text]) s hs
      refine ⟨hcontent, ?_⟩
      rcases hmeta with h | ⟨l', hl', h1, h2, h3⟩
      · exact Or.inl h
      · exact Or.inr ⟨l', List.mem_cons_of_mem l hl', h1, h2, h3⟩

theorem accum_allHeads (cls : SrcLine → Option Level) :
    ∀ (ls : List SrcLine), (∀ l ∈ ls, (cls l).isSome) →
    ∀ m, accumGo cls ls (some m) [] = [] := by
  intro ls
  induction ls with
  | nil =>
    intro _ m
    simp [accumGo, emitClose, closeSec, normalizeJoin_nil]
  | cons l ls ih =>
    intro h m
    have hl := h l (List.mem_cons_self l ls)
    cases hc : cls l with
    | none => rw [hc] at hl; simp at hl
    | some v =>
      simp only [accumGo, hc]
      rw [ih (fun x hx => h x (List.mem_cons_of_mem l hx)) ⟨v, l.text, l.page⟩]
      simp [emitClose, closeSec, normalizeJoin_nil]

theorem accum_noBodyAfterHead (cls : SrcLine → Option Level) :
    ∀ (ls : List SrcLine) (buf : List String),
    ls.Pairwise (fun a b => (cls a).isSome = true → (cls b).isSome = true) →
    accumGo cls ls none buf = [] := by
  intro ls
  induction ls with
  | nil =>
    intro buf _
    simp [accumGo, emitClose]
  | cons l ls ih =>
    intro buf H
    rw [List.pairwise_cons] at H
    obtain ⟨Hl, Hls⟩ := H
    cases hc : cls l with
    | some v =>
      simp only [accumGo, hc]
      have hAll : ∀ x ∈ ls, (cls x).isSome := by
        intro x hx
        exact Hl x hx (by rw [hc]; rfl)
      rw [accum_allHeads cls ls hAll ⟨v, l.text, l.page⟩]
      simp [emitClose]
    | none =>
      simp only [accumGo, hc]
      exact ih (buf ++ [l.text]) Hls

theorem accum_sublist (cls : SrcLine → Option Level) :
    ∀ (ls : List SrcLine) (cur : Option HeadMeta) (buf : List String),
    List.Sublist ((accumGo cls ls cur buf).map fun s => (s.text, s.page))
      ((match cur with
        | none => ([] : List (String × Nat))
        | some m => [(m.text, m.page)])
        ++ (ls.filter fun l => (cls l).isSome).map fun l => (l.text, l.page)) := by
  intro ls
  induction ls with
  | nil =>
    intro cur buf
    cases cur with
    | none => simp [accumGo, emitClose]
    | some m =>
      simp only [accumGo, emitClose, closeSec, List.filter_nil, List.map_nil,
        List.append_nil]
      split
      · simp
      · simp
  | cons l ls ih =>
    intro cur buf
    cases hc : cls l with
    | some v =>
      simp only [accumGo, hc, List.map_append, List.filter_cons, Option.isSome_some,
        if_true, List.map_cons]
      have h2 := ih (some ⟨v, l.text, l.page⟩) []
      refine List.Sublist.append ?_ (by simpa using h2)
      cases cur with
      | none => simp [emitClose]
      | some m =>
        simp only [emitClose, closeSec]
        split
        · simp
        · simp
    | none =>
      simp only [accumGo, hc, List.filter_cons, Option.isSome_none]
      simpa using ih cur (buf ++ [l.text])

/-! ## Whitespace-normalisation properties of section bodies -/

theorem getLast?_cons_of_ne_nil (c : Char) (cs : List Char) (h : cs ≠ []) :
    (c :: cs).getLast? = cs.getLast? := by
  cases cs with
  | nil => exact absurd rfl h
  | cons d ds => exact List.getLast?_cons_cons

theorem getLast?_some_ne_nil {l : List Char} {d : Char} (h : l.getLast? = some d) :
    l ≠ [] := by
  intro he
  subst he
  simp at h

theorem collapseWS_cons_ws_true {c : Char} (cs : List Char) (hw : c.isWhitespace = true) :
    collapseWS true (c :: cs) = collapseWS true cs := by
  simp [collapseWS, hw]

theorem collapseWS_cons_ws_false {c : Char} (cs : List Char) (hw : c.isWhitespace = true) :
    collapseWS false (c :: cs) = ' ' :: collapseWS true cs := by
  simp [collapseWS, hw]

theorem collapseWS_cons_not_ws {c : Char} (b : Bool) (cs : List Char)
    (hw : c.isWhitespace = false) :
    collapseWS b (c :: cs) = c :: collapseWS false cs := by
  simp [collapseWS, hw]

theorem collapseWS_nl_not_mem (cs : List Char) : ∀ b, '\n' ∉ collapseWS b cs := by
  induction cs with
  | nil => intro b; simp [collapseWS]
  | cons c cs ih =>
    intro b
    cases hw : c.isWhitespace with
    | true =>
      cases b with
      | true => rw [collapseWS_cons_ws_true cs hw]; exact ih true
      | false =>
        rw [collapseWS_cons_ws_false cs hw]
        intro hm
        rcases List.mem_cons.1 hm with h | h
        · exact absurd h (by decide)
        · exact ih true h
    | false =>
      rw [collapseWS_cons_not_ws b cs hw]
      intro hm
      rcases List.mem_cons.1 hm with h | h
      · rw [← h] at hw
        exact absurd hw (by decide)
      · exact ih false h

theorem collapseWS_head_true (cs : List Char) :
    ∀ h, (collapseWS true cs).head? = some h → h.isWhitespace = false := by
  induction cs with
  | nil => intro h hh; simp [collapseWS] at hh
  | cons c cs ih =>
    intro h hh
    cases hw : c.isWhitespace with
    | true =>
      rw [collapseWS_cons_ws_true cs hw] at hh
      exact ih h hh
    | false =>
      rw [collapseWS_cons_not_ws true cs hw] at hh
      simp only [List.head?_cons, Option.some.injEq] at hh
      rw [← hh]
      exact hw

theorem collapseWS_chain (cs : List Char) :
    ∀ b, List.Chain' (fun a c => ¬(a.isWhitespace = true ∧ c.isWhitespace = true))
      (collapseWS b cs) := by
  induction cs with
  | nil => intro b; simp [collapseWS]
  | cons c cs ih =>
    intro b
    cases hw : c.isWhitespace with
    | true =>
      cases b with
      | true => rw [collapseWS_cons_ws_true cs hw]; exact ih true
      | false =>
        rw [collapseWS_cons_ws_false cs hw]
        rw [List.chain'_cons']
        refine ⟨?_, ih true⟩
        intro y hy
        intro hcon
        have := collapseWS_head_true cs y (by simpa using hy)
        rw [this] at hcon
        exact Bool.false_ne_true hcon.2
    | false =>
      rw [collapseWS_cons_not_ws b cs hw]
      rw [List.chain'_cons']
      refine ⟨?_, ih false⟩
      intro y hy hcon
      rw [hw] at hcon
      exact Bool.false_ne_true hcon.1

theorem collapseWS_last (cs : List Char) :
    ∀ b d, cs.getLast? = some d → d.isWhitespace = false →
    ∃ d', (collapseWS b cs).getLast? = some d' ∧ d'.isWhitespace = false := by
  induction cs with
  | nil => intro b d hd _; simp at hd
  | cons c cs ih =>
    intro b d hd hdw
    cases cs with
    | nil =>
      have hcd : c = d := by simpa using hd
      subst hcd
      rw [collapseWS_cons_not_ws b [] hdw]
      exact ⟨c, by simp [collapseWS], hdw⟩
    | cons c2 cs2 =>
      have hne : (c2 :: cs2) ≠ ([] : List Char) := by simp
      rw [getLast?_cons_of_ne_nil c (c2 :: cs2) hne] at hd
      cases hw : c.isWhitespace with
      | true =>
        cases b with
        | true =>
          rw [collapseWS_cons_ws_true (c2 :: cs2) hw]
          exact ih true d hd hdw
        | false =>
          rw [collapseWS_cons_ws_false (c2 :: cs2) hw]
          obtain ⟨d', hd', hdw'⟩ := ih true d hd hdw
          exact ⟨d', by rw [getLast?_cons_of_ne_nil _ _ (getLast?_some_ne_nil hd')]; exact hd',
            hdw'⟩
      | false =>
        rw [collapseWS_cons_not_ws b (c2 :: cs2) hw]
        obtain ⟨d', hd', hdw'⟩ := ih false d hd hdw
        exact ⟨d', by rw [getLast?_cons_of_ne_nil _ _ (getLast?_some_ne_nil hd')]; exact hd',
          hdw'⟩

theorem sub1Fuel_cons_not_nl (f : Nat) (c : Char) (cs : List Char)
    (h : (c == '\n') = false) : sub1Fuel (f + 1) (c :: cs) = c :: sub1Fuel f cs := by
  simp [sub1Fuel, h]

theorem sub1Fuel_nil (f : Nat) : sub1Fuel f [] = [] := by
  cases f with
  | zero => rfl
  | succ f => rfl

theorem sub1Fuel_last :
    ∀ (f : Nat) (cs : List Char) (d : Char), cs.getLast? = some d →
    d.isWhitespace = false →
    ∃ d', (sub1Fuel f cs).getLast? = some d' ∧ d'.isWhitespace = false := by
  intro f
  induction f with
  | zero =>
    intro cs d hd hdw
    exact ⟨d, hd, hdw⟩
  | succ f ih =>
    intro cs d hd hdw
    cases cs with
    | nil => simp at hd
    | cons c cs2 =>
      cases cs2 with
      | nil =>
        have hcd : c = d := by simpa using hd
        subst hcd
        have hnl : (c == '\n') = false := by
          cases hb : c == '\n' with
          | false => rfl
          | true =>
            have : c = '\n' := by simpa using hb
            rw [this] at hdw
            exact absurd hdw (by decide)
        rw [sub1Fuel_cons_not_nl f c [] hnl, sub1Fuel_nil f]
        exact ⟨c, rfl, hdw⟩
      | cons c2 cs3 =>
        have hne : (c2 :: cs3) ≠ ([] : List Char) := by simp
        rw [getLast?_cons_of_ne_nil c (c2 :: cs3) hne] at hd
        cases hnl : c == '\n' with
        | false =>
          rw [sub1Fuel_cons_not_nl f c (c2 :: cs3) hnl]
          obtain ⟨d', hd', hdw'⟩ := ih (c2 :: cs3) d hd hdw
          exact ⟨d', by rw [getLast?_cons_of_ne_nil _ _ (getLast?_some_ne_nil hd')]; exact hd',
            hdw'⟩
        | true =>
          have hceq : c = '\n' := by simpa using hnl
          subst hceq
          cases hal : afterLastNL ((c2 :: cs3).takeWhile Char.isWhitespace) with
          | none =>
            have : sub1Fuel (f + 1) ('\n' :: c2 :: cs3) = '\n' :: sub1Fuel f (c2 :: cs3) := by
              simp [sub1Fuel, hal]
            rw [this]
            obtain ⟨d', hd', hdw'⟩ := ih (c2 :: cs3) d hd hdw
            exact ⟨d',
              by rw [getLast?_cons_of_ne_nil _ _ (getLast?_some_ne_nil hd')]; exact hd', hdw'⟩
          | some after =>
            have hstep : sub1Fuel (f + 1) ('\n' :: c2 :: cs3)
                = ' ' :: sub1Fuel f (after ++ (c2 :: cs3).dropWhile Char.isWhitespace) := by
              simp [sub1Fuel, hal]
            rw [hstep]
            have hrest : (c2 :: cs3).dropWhile Char.isWhitespace ≠ [] := by
              intro hr
              have hsplit := List.takeWhile_append_dropWhile Char.isWhitespace (c2 :: cs3)
              rw [hr, List.append_nil] at hsplit
              have hdmem : d ∈ (c2 :: cs3).takeWhile Char.isWhitespace := by
                rw [hsplit]
                exact List.mem_of_mem_getLast? hd
              have := List.mem_takeWhile_imp hdmem
              rw [hdw] at this
              exact Bool.false_ne_true this
            have hlast2 : (after ++ (c2 :: cs3).dropWhile Char.isWhitespace).getLast?
                = some d := by
              rw [List.getLast?_append_of_ne_nil after hrest]
              have h1 : ((c2 :: cs3).takeWhile Char.isWhitespace
                  ++ (c2 :: cs3).dropWhile Char.isWhitespace).getLast? = some d := by
                rw [List.takeWhile_append_dropWhile Char.isWhitespace (c2 :: cs3)]
                exact hd
              rw [List.getLast?_append_of_ne_nil _ hrest] at h1
              exact h1
            obtain ⟨d', hd', hdw'⟩ := ih _ d hlast2 hdw
            exact ⟨d',
              by rw [getLast?_cons_of_ne_nil _ _ (getLast?_some_ne_nil hd')]; exact hd', hdw'⟩

theorem dropTrailWS_cons (c : Char) (cs : List Char) :
    dropTrailWS (c :: cs)
      = if (dropTrailWS cs).isEmpty then (if c.isWhitespace then [] else [c])
        else c :: dropTrailWS cs := rfl

theorem dropTrailWS_last :
    ∀ (cs : List Char) (d : Char), (dropTrailWS cs).getLast? = some d →
    d.isWhitespace = false := by
  intro cs
  induction cs with
  | nil => intro d hd; simp [dropTrailWS] at hd
  | cons c cs ih =>
    intro d hd
    rw [dropTrailWS_cons] at hd
    by_cases he : (dropTrailWS cs).isEmpty
    · rw [if_pos he] at hd
      cases hw : c.isWhitespace with
      | true => rw [if_pos hw] at hd; simp at hd
      | false =>
        rw [if_neg (by rw [hw]; exact Bool.false_ne_true)] at hd
        have : c = d := by simpa using hd
        rw [← this]
        exact hw
    · rw [if_neg he] at hd
      have hne : dropTrailWS cs ≠ [] := by
        intro h
        rw [h] at he
        exact he rfl
      rw [getLast?_cons_of_ne_nil c _ hne] at hd
      exact ih d hd

theorem dropTrailWS_head :
    ∀ (cs : List Char) (h : Char), (dropTrailWS cs).head? = some h → cs.head? = some h := by
  intro cs
  induction cs with
  | nil => intro h hh; simp [dropTrailWS] at hh
  | cons c cs _ =>
    intro h hh
    rw [dropTrailWS_cons] at hh
    by_cases he : (dropTrailWS cs).isEmpty
    · rw [if_pos he] at hh
      cases hw : c.isWhitespace with
      | true => rw [if_pos hw] at hh; simp at hh
      | false =>
        rw [if_neg (by rw [hw]; exact Bool.false_ne_true)] at hh
        simpa using hh
    · rw [if_neg he] at hh
      simpa using hh

theorem dropLeadWS_head :
    ∀ (cs : List Char) (h : Char), (dropLeadWS cs).head? = some h →
    h.isWhitespace = false := by
  intro cs
  induction cs with
  | nil => intro h hh; simp [dropLeadWS] at hh
  | cons c cs ih =>
    intro h hh
    rw [dropLeadWS, List.dropWhile_cons] at hh
    by_cases hw : c.isWhitespace = true
    · rw [if_pos hw] at hh
      exact ih h hh
    · rw [if_neg hw] at hh
      have : c = h := by simpa using hh
      rw [← this]
      revert hw
      cases c.isWhitespace <;> simp

theorem pyStripList_head (cs : List Char) (h : Char) :
    (pyStripList cs).head? = some h → h.isWhitespace = false := by
  intro hh
  have h1 : (dropTrailWS (dropLeadWS cs)).head? = some h := hh
  have h2 := dropTrailWS_head (dropLeadWS cs) h h1
  exact dropLeadWS_head cs h h2

theorem pyStripList_last (cs : List Char) (d : Char) :
    (pyStripList cs).getLast? = some d → d.isWhitespace = false := by
  intro hd
  exact dropTrailWS_last (dropLeadWS cs) d hd

theorem normalizeJoin_props (texts : List String) :
    '\n' ∉ (normalizeJoin texts).data
    ∧ List.Chain' (fun a c => ¬(a.isWhitespace = true ∧ c.isWhitespace = true))
        (normalizeJoin texts).data
    ∧ (∀ h, (normalizeJoin texts).data.head? = some h → h.isWhitespace = false)
    ∧ (∀ d, (normalizeJoin texts).data.getLast? = some d → d.isWhitespace = false) := by
  have hdata : (normalizeJoin texts).data
      = collapseWS false (subNLPair (pyStripList (joinWithSpace texts))) := rfl
  refine ⟨?_, ?_, ?_, ?_⟩
  · rw [hdata]
    exact collapseWS_nl_not_mem _ false
  · rw [hdata]
    exact collapseWS_chain _ false
  · rw [hdata]
    intro h hh
    cases hts : pyStripList (joinWithSpace texts) with
    | nil => rw [hts] at hh; simp [subNLPair, sub1Fuel, collapseWS] at hh
    | cons c t' =>
      have hcw : c.isWhitespace = false := by
        apply pyStripList_head (joinWithSpace texts) c
        rw [hts]
        rfl
      have hnl : (c == '\n') = false := by
        cases hb : c == '\n' with
        | false => rfl
        | true =>
          have : c = '\n' := by simpa using hb
          rw [this] at hcw
          exact absurd hcw (by decide)
      rw [hts] at hh
      have hsub : subNLPair (c :: t') = c :: sub1Fuel (t'.length + 1) t' := by
        rw [subNLPair, List.length_cons]
        exact sub1Fuel_cons_not_nl (t'.length + 1) c t' hnl
      rw [hsub, collapseWS_cons_not_ws false _ hcw] at hh
      have : c = h := by simpa using hh
      rw [← this]
      exact hcw
  · rw [hdata]
    intro d hd
    cases hts : pyStripList (joinWithSpace texts) with
    | nil => rw [hts] at hd; simp [subNLPair, sub1Fuel, collapseWS] at hd
    | cons c t' =>
      cases hl : (c :: t').getLast? with
      | none => simp at hl
      | some d0 =>
        have hd0 : d0.isWhitespace = false := by
          apply pyStripList_last (joinWithSpace texts) d0
          rw [hts]
          exact hl
        obtain ⟨d1, hd1, hd1w⟩ :=
          sub1Fuel_last ((c :: t').length + 1) (c :: t') d0 hl hd0
        obtain ⟨d2, hd2, hd2w⟩ := collapseWS_last _ false d1 hd1 hd1w
        rw [hts] at hd
        simp only [subNLPair] at hd
        rw [hd2] at hd
        have : d2 = d := by simpa using hd
        rw [← this]
        exact hd2w

/-! ## Inversion of the heading classifier and the round 1a loop invariant -/

theorem classifyLine_H1 (h1t h2t h3t : ℚ) (l : SrcLine)
    (h : classifyLine h1t h2t h3t l = some Level.H1) :
    l.is_bold = true ∧ h1t ≤ l.font_size ∧ wordCount l.text < 15 := by
  simp only [classifyLine] at h
  split at h
  · exact absurd h (by simp)
  · by_cases hb1 :
      (l.is_bold && decide (h1t ≤ l.font_size) && decide (wordCount l.text < 15)) = true
    · simp only [Bool.and_eq_true, decide_eq_true_eq] at hb1
      exact ⟨hb1.1.1, hb1.1.2, hb1.2⟩
    · rw [if_neg hb1] at h
      by_cases hb2 :
        (l.is_bold && decide (h2t ≤ l.font_size) && decide (wordCount l.text < 20)) = true
      · rw [if_pos hb2] at h
        exfalso
        split at h <;> simp_all
        all_goals (split at h <;> simp_all)
      · rw [if_neg hb2] at h
        by_cases hb3 :
          (decide (h3t ≤ l.font_size) && decide (wordCount l.text < 25)
            && !endsWithDot l.text) = true
        · rw [if_pos hb3] at h
          exfalso
          split at h <;> simp_all
          all_goals (split at h <;> simp_all)
        · rw [if_neg hb3] at h
          simp at h

theorem foldl_inv {β : Type} (P : Entry → Prop) (f : List Entry → β → List Entry)
    (hf : ∀ acc x, (∀ e ∈ acc, P e) → ∀ e ∈ f acc x, P e) :
    ∀ (l : List β) (init0 : List Entry), (∀ e ∈ init0, P e) →
    ∀ e ∈ l.foldl f init0, P e := by
  intro l
  induction l with
  | nil => intro init0 h; exact h
  | cons x xs ih =>
    intro init0 h
    exact ih (f init0 x) (hf init0 x h)

theorem r1aStep_inv (t1 t2 t3 minH : ℚ) (title : String) (p : Nat) (recs : List SrcLine)
    (acc0 : List Entry)
    (h0 : ∀ e ∈ acc0, ¬(e.level = Level.H1 ∧ e.text = title ∧ e.page = 1)) :
    ∀ e ∈ r1aStep t1 t2 t3 minH title p acc0 recs,
      ¬(e.level = Level.H1 ∧ e.text = title ∧ e.page = 1) := by
  rw [r1aStep]
  apply foldl_inv (fun e => ¬(e.level = Level.H1 ∧ e.text = title ∧ e.page = 1)) _ _ recs acc0 h0
  intro acc r hinv e he
  split at he
  · exact hinv e he
  · split at he
    · exact hinv e he
    · rename_i lv heq
      split at he
      · exact hinv e he
      · split at he
        · exact hinv e he
        · rename_i hguard hdup
          rcases List.mem_append.1 he with hmem | hmem
          · exact hinv e hmem
          · have hee : e = ⟨lv, r.text, p⟩ := by simpa using hmem
            subst hee
            intro hcon
            apply hguard
            simp only [Bool.and_eq_true, decide_eq_true_eq]
            exact ⟨⟨hcon.1, hcon.2.1⟩, hcon.2.2⟩

/-! ## Token-overlap bounds and rank enumeration -/

theorem tokenScore_bounds (job text : String) :
    0 ≤ tokenScore job text ∧ tokenScore job text ≤ 1 := by
  rw [tokenScore]
  split
  · rename_i hn
    have hpos : (0 : ℚ) < ((keywords text).length : ℚ) := by
      exact_mod_cast hn
    constructor
    · apply div_nonneg _ (le_of_lt hpos)
      exact_mod_cast Nat.zero_le _
    · rw [div_le_one hpos]
      exact_mod_cast List.length_filter_le _ _
  · norm_num

theorem withRanksFrom_map_snd {α : Type} :
    ∀ (l : List α) (n : Nat),
    (withRanksFrom n l).map Prod.snd = List.range' n l.length := by
  intro l
  induction l with
  | nil => intro n; rfl
  | cons x xs ih =>
    intro n
    rw [withRanksFrom, List.map_cons, List.length_cons, List.range'_succ n xs.length 1, ih]

/-! ## C4 — derived thresholds satisfy `h1 ≥ h2 ≥ h3 > 0` -/

/-- C4: for every `max_font_size > 0`, the floor chain
`h3 = max(0.60·max, 10.0·1.2)`, `h2 = max(0.75·max, h3·1.15)`,
`h1 = max(0.90·max, h2·1.1)` of `r1bThresholds` satisfies
`h1 ≥ h2 ≥ h3 > 0`. -/
theorem C4_threshold_chain (maxf : ℚ) (_hm : 0 < maxf) :
    (r1bThresholds maxf).2.1 ≤ (r1bThresholds maxf).1
    ∧ (r1bThresholds maxf).2.2 ≤ (r1bThresholds maxf).2.1
    ∧ 0 < (r1bThresholds maxf).2.2 := by
  simp only [r1bThresholds]
  have p3 : (0 : ℚ) < max (maxf * 0.60) (10.0 * 1.2) :=
    lt_of_lt_of_le (by norm_num) (le_max_right _ _)
  have p32 : max (maxf * 0.60) (10.0 * 1.2)
      ≤ max (maxf * 0.75) (max (maxf * 0.60) (10.0 * 1.2) * 1.15) :=
    le_trans (by nlinarith [p3]) (le_max_right _ _)
  have p2 : (0 : ℚ) < max (maxf * 0.75) (max (maxf * 0.60) (10.0 * 1.2) * 1.15) :=
    lt_of_lt_of_le p3 p32
  have p21 : max (maxf * 0.75) (max (maxf * 0.60) (10.0 * 1.2) * 1.15)
      ≤ max (maxf * 0.90)
          (max (maxf * 0.75) (max (maxf * 0.60) (10.0 * 1.2) * 1.15) * 1.1) :=
    le_trans (by nlinarith [p2]) (le_max_right _ _)
  exact ⟨p21, p32, p3⟩

/-- C4 witness at `max_font_size = 24`. -/
theorem C4_threshold_chain_witness :
    (0 : ℚ) < 24
    ∧ ((r1bThresholds 24).2.1 ≤ (r1bThresholds 24).1
        ∧ (r1bThresholds 24).2.2 ≤ (r1bThresholds 24).2.1
        ∧ 0 < (r1bThresholds 24).2.2) :=
  ⟨by decide, C4_threshold_chain 24 (by decide)⟩

/-! ## C1 — relevance score range -/

unseal Rat.mul Rat.add Rat.sub Rat.inv Rat.ofScientific in
/-- C1 counterexample: the source never clamps the similarity values before
the `0.7/0.3` weighting, so with a provider whose cosine-like similarity is
`-1` (the bottom of the documented `[-1, 1]` range) the relevance score of a
section is `-1`, outside `[0, 1]`. -/
theorem C1_vector_score_below_zero :
    sectionScore (some nlpNeg) "x" "y" "abc" < 0 := by
  decide

/-- C1 amended: the token-overlap score is always within `[0, 1]`, and the
vector-variant score `0.7·sim_job + 0.3·sim_persona` is within `[0, 1]`
provided the provider's similarities lie in `[0, 1]` — no clamping is
performed by the code itself. -/
theorem C1_score_bounds_amended (opt : Option NLP)
    (hsim : ∀ p, opt = some p → ∀ a b, 0 ≤ p.sim a b ∧ p.sim a b ≤ 1)
    (job persona content : String) :
    0 ≤ sectionScore opt job persona content
    ∧ sectionScore opt job persona content ≤ 1 := by
  cases opt with
  | none => exact tokenScore_bounds job content
  | some p =>
    rw [sectionScore]
    split
    · rw [vectorScore]
      have ha : 0 ≤ (if p.hasVector job then p.sim content job else 0)
          ∧ (if p.hasVector job then p.sim content job else 0) ≤ 1 := by
        split
        · exact hsim p rfl content job
        · norm_num
      have hb : 0 ≤ (if p.hasVector persona then p.sim content persona else 0)
          ∧ (if p.hasVector persona then p.sim content persona else 0) ≤ 1 := by
        split
        · exact hsim p rfl content persona
        · norm_num
      constructor
      · nlinarith [ha.1, hb.1]
      · nlinarith [ha.2, hb.2, ha.1, hb.1]
    · exact tokenScore_bounds job content

/-- C1 witness: a provider with constant similarity `1`. -/
theorem C1_score_bounds_amended_witness :
    0 ≤ sectionScore (some nlpAll) "job" "persona" "body text"
    ∧ sectionScore (some nlpAll) "job" "persona" "body text" ≤ 1 :=
  C1_score_bounds_amended (some nlpAll)
    (fun p hp a b => by cases hp; exact ⟨by simp [nlpAll], by simp [nlpAll]⟩)
    "job" "persona" "body text"

/-! ## C8 — similarity-variant selection -/

unseal Rat.mul Rat.add Rat.sub Rat.inv Rat.ofScientific in
/-- C8 counterexample: with a run-level vector variant active
(`nlp_has_vectors` true), a sentence whose own document has no vector is
scored by token overlap — the code's per-sentence `else` branch — so the two
scoring semantics can mix inside one run (here the sentence `"qqq"` scores
`0` by token overlap while the provider similarity would be `1`). -/
theorem C8_sentence_variant_mixed :
    nlpHasVectors (some nlpNotQqq) "alpha" "beta" = true
    ∧ sentenceUsesVector (some nlpNotQqq) "alpha" "qqq" = false
    ∧ sentenceScore (some nlpNotQqq) "alpha" "qqq" = 0
    ∧ nlpNotQqq.sim "qqq" "alpha" = 1 := by
  refine ⟨by decide, by decide, by decide, by decide⟩

/-- C8 amended: sections are scored with the run-level variant uniformly
(vector exactly when `nlp_has_vectors` holds, for any section with
non-empty stripped content), but a sentence is scored with the vector
variant only when the run variant is vector *and* the sentence itself has a
usable vector; a vectorless sentence falls back to token overlap
individually. -/
theorem C8_variant_selection_amended (opt : Option NLP)
    (job persona content sent : String) (p : NLP) :
    (pyStrip content ≠ "" →
      sectionUsesVector opt job persona content = nlpHasVectors opt job persona)
    ∧ (opt = some p → nlpHasVectors opt job persona = true →
        sentenceUsesVector opt job sent = p.hasVector sent) := by
  constructor
  · intro hc
    rw [sectionUsesVector]
    have hb : (pyStrip content == "") = false := by
      cases hb : pyStrip content == "" with
      | false => rfl
      | true => exact absurd (by simpa using hb) hc
    rw [hb]
    simp
  · intro hp hv
    subst hp
    rw [sentenceUsesVector]
    rw [nlpHasVectors] at hv
    simp only [Bool.and_eq_true] at hv
    rw [hv.1, Bool.and_true]

/-- C8 witness: with the all-embedding provider the section selector equals
the run selector and the sentence selector equals the sentence's own
`hasVector`. -/
theorem C8_variant_selection_amended_witness :
    sectionUsesVector (some nlpAll) "a" "b" "xy" = nlpHasVectors (some nlpAll) "a" "b"
    ∧ sentenceUsesVector (some nlpAll) "a" "s" = nlpAll.hasVector "s" :=
  ⟨(C8_variant_selection_amended (some nlpAll) "a" "b" "xy" "s" nlpAll).1 (by decide),
   (C8_variant_selection_amended (some nlpAll) "a" "b" "xy" "s" nlpAll).2 rfl (by decide)⟩

/-! ## C9 — empty documents -/

/-- C9: a document with zero (non-empty) text lines yields the empty title
and no outline/sections from both extractors, with no failure — both are
total functions that short-circuit on the empty stream. -/
theorem C9_empty_document (raws spans : List SrcLine)
    (hr : preprocessLines raws = []) (hs : preprocessLines spans = []) :
    extract_document_sections raws = ("", [])
    ∧ extract_document_outline spans = ("", []) := by
  constructor
  · rw [extract_document_sections, hr]
    rfl
  · rw [extract_document_outline, hs]
    rfl

/-- C9 witness: a whitespace-only line and an empty span stream. -/
theorem C9_empty_document_witness :
    preprocessLines [⟨"  ", 5, false, 0, 1⟩] = []
    ∧ extract_document_sections [⟨"  ", 5, false, 0, 1⟩] = ("", [])
    ∧ extract_document_outline [] = ("", []) :=
  ⟨by decide,
   (C9_empty_document [⟨"  ", 5, false, 0, 1⟩] [] (by decide) (by decide)).1,
   (C9_empty_document [⟨"  ", 5, false, 0, 1⟩] [] (by decide) (by decide)).2⟩

/-! ## Structure of `extract_document_sections` -/

theorem extract_sections_eq (raws : List SrcLine) :
    (extract_document_sections raws).2 = sSort ltSec (extractUnsorted raws) := by
  simp only [extract_document_sections]
  by_cases he : (preprocessLines raws).isEmpty = true
  · rw [if_pos he]
    have hnil : preprocessLines raws = [] := List.isEmpty_iff.mp he
    have hu : extractUnsorted raws = [] := by
      simp only [extractUnsorted]
      rw [hnil]
      rfl
    rw [hu]
    rfl
  · rw [if_neg he]

theorem extract_title_eq (raws : List SrcLine)
    (h : (preprocessLines raws).isEmpty = false) :
    (extract_document_sections raws).1
      = (titleSplit (r1bThresholds (maxFontSize (preprocessLines raws))).1
          (maxFontSize (preprocessLines raws)) (preprocessLines raws)).1 := by
  simp only [extract_document_sections]
  rw [if_neg (by rw [h]; exact Bool.false_ne_true)]

theorem titleSplit_no_cand (h1t maxf : ℚ) (lines : List SrcLine) (l : SrcLine)
    (hl : l ∈ (titleSplit h1t maxf lines).2)
    (hteq : l.text = (titleSplit h1t maxf lines).1)
    (hp : l.page = 1) (hfont : h1t ≤ l.font_size) (hwc : wordCount l.text < 20)
    (hbold : l.is_bold = true) :
    False := by
  have hlc : l ∈ lines →
      l ∈ lines.filter fun x =>
        x.page == 1 && decide (h1t ≤ x.font_size) && decide (wordCount x.text < 20)
          && (x.is_bold || decide (x.font_size = maxf)) := by
    intro hmem
    rw [List.mem_filter]
    exact ⟨hmem, by simp [hp, hfont, hwc, hbold]⟩
  simp only [titleSplit] at hl hteq
  by_cases hany : (lines.any fun x => x.page == 1) = true
  · rw [if_pos hany] at hl hteq
    cases hhead : (sSort ltTitle (lines.filter fun x =>
        x.page == 1 && decide (h1t ≤ x.font_size) && decide (wordCount x.text < 20)
          && (x.is_bold || decide (x.font_size = maxf)))).head? with
    | some c =>
      rw [hhead] at hl hteq
      have hl' : l ∈ lines.filter fun x => !(x.text == c.text && x.page == 1) := hl
      have hteq' : l.text = c.text := hteq
      rw [List.mem_filter] at hl'
      have h2 := hl'.2
      rw [hteq'] at h2
      simp [hp] at h2
    | none =>
      rw [hhead] at hl
      have hcnil : (lines.filter fun x =>
          x.page == 1 && decide (h1t ≤ x.font_size) && decide (wordCount x.text < 20)
            && (x.is_bold || decide (x.font_size = maxf))) = [] := by
        have h0 := List.head?_eq_none_iff.mp hhead
        have hlen := length_sSort ltTitle (lines.filter fun x =>
          x.page == 1 && decide (h1t ≤ x.font_size) && decide (wordCount x.text < 20)
            && (x.is_bold || decide (x.font_size = maxf)))
        rw [h0] at hlen
        exact List.length_eq_zero.mp hlen.symm
      cases hh0 : lines.head? with
      | none =>
        have hln : lines = [] := List.head?_eq_none_iff.mp hh0
        have hl' : l ∈ lines := by
          rw [hh0] at hl
          exact hl
        rw [hln] at hl'
        simp at hl'
      | some l0 =>
        rw [hh0] at hl
        have hl2 : l ∈ (if (l0.page == 1) = true
            then (l0.text, lines.tail) else ("", lines)).2 := hl
        by_cases hp0 : (l0.page == 1) = true
        · rw [if_pos hp0] at hl2
          have hl' : l ∈ lines.tail := hl2
          have hmem : l ∈ lines := (List.tail_sublist lines).subset hl'
          have hcand := hlc hmem
          rw [hcnil] at hcand
          simp at hcand
        · rw [if_neg hp0] at hl2
          have hl' : l ∈ lines := hl2
          have hcand := hlc hl'
          rw [hcnil] at hcand
          simp at hcand
  · rw [if_neg hany] at hl
    have hmem : l ∈ lines := hl
    have hno : ¬ ∃ x ∈ lines, (x.page == 1) = true := by
      rw [← List.any_eq_true]
      exact hany
    exact hno ⟨l, hmem, by simp [hp]⟩

/-! ## C2 — the five-line page-1 scenario -/

set_option maxRecDepth 10000 in
unseal Rat.mul Rat.add Rat.sub Rat.inv Rat.ofScientific in
/-- C2 counterexample: on the five-line scenario the two headings are *not*
classified `H1` — with `max_font_size = 24` the derived `h1` threshold is
`max(21.6, 19.8) = 21.6` and the 20-point headings fall short of it, so the
claimed output (H1 entries) is not what the code produces. -/
theorem C2_scenario_not_H1 :
    extract_document_sections c2Lines
      ≠ ("Report Title",
          [⟨Level.H1, "Introduction", 1, "This is the intro body."⟩,
           ⟨Level.H1, "Methods", 1, "Method body text."⟩]) := by
  decide

set_option maxRecDepth 10000 in
unseal Rat.mul Rat.add Rat.sub Rat.inv Rat.ofScientific in
/-- C2 amended: same scenario, but the two headings are classified `H2`
(they clear `h2 = 18` but not `h1 = 21.6`); title and the two non-empty
bodies are as claimed. -/
theorem C2_scenario_H2_amended :
    extract_document_sections c2Lines
      = ("Report Title",
          [⟨Level.H2, "Introduction", 1, "This is the intro body."⟩,
           ⟨Level.H2, "Methods", 1, "Method body text."⟩]) := by
  decide

/-! ## C5 — accumulator guarantees -/

/-- C5: over any classified line stream, the accumulator emits at most as
many sections as there are heading-classified lines, every emitted section
has a non-empty body, and it emits nothing when no body line follows any
heading (every stretch of lines after a heading consists of headings
only). -/
theorem C5_accumulator_guarantees (h1t h2t h3t : ℚ) (ls : List SrcLine) :
    (accumGo (classifyLine h1t h2t h3t) ls none []).length
      ≤ (ls.filter fun l => (classifyLine h1t h2t h3t l).isSome).length
    ∧ (∀ s ∈ accumGo (classifyLine h1t h2t h3t) ls none [], s.full_content ≠ "")
    ∧ (ls.Pairwise (fun a b =>
          (classifyLine h1t h2t h3t a).isSome = true
            → (classifyLine h1t h2t h3t b).isSome = true) →
        accumGo (classifyLine h1t h2t h3t) ls none [] = []) := by
  refine ⟨?_, ?_, ?_⟩
  · simpa using accum_length_le (classifyLine h1t h2t h3t) ls none []
  · intro s hs
    obtain ⟨⟨b, hb, hbne⟩, _⟩ := accum_src (classifyLine h1t h2t h3t) ls none [] s hs
    rw [hb]
    exact hbne
  · intro hp
    exact accum_noBodyAfterHead (classifyLine h1t h2t h3t) ls [] hp

set_option maxRecDepth 10000 in
unseal Rat.mul Rat.add Rat.sub Rat.inv Rat.ofScientific in
/-- C5 witness: two heading-only lines under thresholds `27/22.5/18` —
the bound holds and the output is empty. -/
theorem C5_accumulator_guarantees_witness :
    (accumGo (classifyLine 27 22.5 18) c5Lines none []).length
      ≤ (c5Lines.filter fun l => (classifyLine 27 22.5 18 l).isSome).length
    ∧ accumGo (classifyLine 27 22.5 18) c5Lines none [] = [] := by
  obtain ⟨h1, _, h3⟩ := C5_accumulator_guarantees 27 22.5 18 c5Lines
  exact ⟨h1, h3 (by decide)⟩

/-! ## C6 — per-document section order -/

set_option maxRecDepth 10000 in
unseal Rat.mul Rat.add Rat.sub Rat.inv Rat.ofScientific in
/-- C6 counterexample: on `c3Lines` the heading lines appear in the order
`Bravo Item` (H2), `Alpha Item` (H1) on the same page, but the returned
sections are reordered `Alpha Item`, `Bravo Item` by the final
`(page, level)` sort — the output order differs from heading order. -/
theorem C6_order_not_heading_order :
    ((extract_document_sections c3Lines).2.map fun s => s.text)
      = ["Alpha Item", "Bravo Item"]
    ∧ ((classifiedHeads c3Lines).map fun l => l.text) = ["Bravo Item", "Alpha Item"]
    ∧ ((extract_document_sections c3Lines).2.map fun s => s.text)
      ≠ ((classifiedHeads c3Lines).map fun l => l.text) := by
  refine ⟨by decide, by decide, by decide⟩

/-- C6 amended: the returned sections are the stable `(page, heading-level)`
sort of the accumulator output, so (a) they are sorted by page, then level
prominence; (b) within one `(page, level)` class the returned order is the
accumulator's emission order; and (c) the accumulator's emission order
follows the order of the heading lines in the residual stream. -/
theorem C6_sorted_stable_amended (raws : List SrcLine) (p : Nat) (lv : Level) :
    ((extract_document_sections raws).2.Pairwise fun a b =>
        a.page < b.page ∨ (a.page = b.page ∧ lvlNum a.level ≤ lvlNum b.level))
    ∧ ((extract_document_sections raws).2.filter
          fun s => decide (s.page = p) && decide (s.level = lv))
        = ((extractUnsorted raws).filter
          fun s => decide (s.page = p) && decide (s.level = lv))
    ∧ List.Sublist ((extractUnsorted raws).map fun s => (s.text, s.page))
        ((classifiedHeads raws).map fun l => (l.text, l.page)) := by
  refine ⟨?_, ?_, ?_⟩
  · rw [extract_sections_eq]
    have hasym : ∀ a b : Section, ltSec a b = true → ltSec b a = false := by
      intro a b h
      simp only [ltSec, Bool.or_eq_true, Bool.and_eq_true, decide_eq_true_eq] at h
      simp only [ltSec, Bool.or_eq_false_iff, Bool.and_eq_false_iff,
        decide_eq_false_iff_not]
      omega
    have htrans : ∀ a b c : Section,
        ltSec b a = false → ltSec c b = false → ltSec c a = false := by
      intro a b c h1 h2
      simp only [ltSec, Bool.or_eq_false_iff, Bool.and_eq_false_iff,
        decide_eq_false_iff_not] at h1 h2 ⊢
      omega
    have hpw := pairwise_sSort ltSec hasym htrans (extractUnsorted raws)
    refine hpw.imp ?_
    intro a b hab
    simp only [ltSec, Bool.or_eq_false_iff, Bool.and_eq_false_iff,
      decide_eq_false_iff_not] at hab
    omega
  · rw [extract_sections_eq]
    apply filter_sSort
    intro y z hy hz
    simp only [Bool.and_eq_true, decide_eq_true_eq] at hy hz
    simp only [ltSec, Bool.or_eq_false_iff, Bool.and_eq_false_iff,
      decide_eq_false_iff_not]
    rw [hy.1, hy.2, hz.1, hz.2]
    omega
  · simp only [extractUnsorted, classifiedHeads]
    simpa using accum_sublist
      (classifyLine (r1bThresholds (maxFontSize (preprocessLines raws))).1
        (r1bThresholds (maxFontSize (preprocessLines raws))).2.1
        (r1bThresholds (maxFontSize (preprocessLines raws))).2.2)
      (titleSplit (r1bThresholds (maxFontSize (preprocessLines raws))).1
        (maxFontSize (preprocessLines raws)) (preprocessLines raws)).2
      none []

/-! ## C3 — global ranking -/

set_option maxRecDepth 10000 in
unseal Rat.mul Rat.add Rat.sub Rat.inv Rat.ofScientific in
/-- C3 counterexample: in the one-document collection over `c3Lines` under
the token-overlap variant, the two sections tie at score `0`, the heading
`Bravo Item` precedes `Alpha Item` in extraction order, yet `Alpha Item`
receives rank 1 — the tie is broken by heading-level prominence (from the
per-document `(page, level)` sort), not by extraction order. -/
theorem C3_tiebreak_not_extraction_order :
    ((rankedSections none "zzzz" "p" c3Docs).map fun pr => (pr.1.text, pr.2))
      = [("Alpha Item", 1), ("Bravo Item", 2)]
    ∧ ((collectAndScore none "zzzz" "p" c3Docs).map fun s => s.score) = [0, 0]
    ∧ ((extractUnsorted c3Lines).map fun s => s.text)
      = ["Bravo Item", "Alpha Item"] := by
  refine ⟨by decide, by decide, by decide⟩

/-- C3 amended: `importance_rank` is the dense sequence `1..M` assigned
along the globally sorted list, whose scores are non-increasing; sections
with equal `relevance_score` keep the order in which they entered the
global list — document order, then each document's already `(page,
heading-level)`-sorted output order — so the tie-break is `(document
order, page, heading-level prominence, extraction order)`, not plain
extraction order. -/
theorem C3_dense_ranks_stable_amended (opt : Option NLP) (job persona : String)
    (docs : List (String × List SrcLine)) (q : ℚ) :
    ((rankedSections opt job persona docs).map Prod.snd)
      = List.range' 1 (collectAndScore opt job persona docs).length
    ∧ (sSort ltScore (collectAndScore opt job persona docs)).Pairwise
        (fun a b => b.score ≤ a.score)
    ∧ (sSort ltScore (collectAndScore opt job persona docs)).filter
        (fun s => decide (s.score = q))
      = (collectAndScore opt job persona docs).filter (fun s => decide (s.score = q)) := by
  refine ⟨?_, ?_, ?_⟩
  · rw [rankedSections, withRanksFrom_map_snd, length_sSort]
  · have hasym : ∀ a b : ScoredSec, ltScore a b = true → ltScore b a = false := by
      intro a b h
      simp only [ltScore, decide_eq_true_eq] at h
      simp only [ltScore, decide_eq_false_iff_not]
      exact lt_asymm h
    have htrans : ∀ a b c : ScoredSec,
        ltScore b a = false → ltScore c b = false → ltScore c a = false := by
      intro a b c h1 h2
      simp only [ltScore, decide_eq_false_iff_not] at h1 h2 ⊢
      intro hca
      exact h1 (lt_of_lt_of_le hca (le_of_not_lt h2))
    have hpw := pairwise_sSort ltScore hasym htrans (collectAndScore opt job persona docs)
    refine hpw.imp ?_
    intro a b hab
    simp only [ltScore, decide_eq_false_iff_not] at hab
    exact le_of_not_lt hab
  · apply filter_sSort
    intro y z hy hz
    simp only [decide_eq_true_eq] at hy hz
    simp only [ltScore, decide_eq_false_iff_not]
    rw [hy, hz]
    exact lt_irrefl q

/-! ## C10 — section bodies are whitespace-normalised -/

/-- C10: every emitted section body contains no newline, no two consecutive
whitespace characters, and no leading or trailing whitespace (so splitting
a body on newlines yields at most one piece). -/
theorem C10_body_normalized (raws : List SrcLine) (s : Section)
    (hs : s ∈ (extract_document_sections raws).2) :
    '\n' ∉ s.full_content.data
    ∧ List.Chain' (fun a c => ¬(a.isWhitespace = true ∧ c.isWhitespace = true))
        s.full_content.data
    ∧ (∀ h, s.full_content.data.head? = some h → h.isWhitespace = false)
    ∧ (∀ d, s.full_content.data.getLast? = some d → d.isWhitespace = false) := by
  rw [extract_sections_eq, mem_sSort] at hs
  simp only [extractUnsorted] at hs
  obtain ⟨⟨b, hb, _⟩, _⟩ := accum_src _ _ none [] s hs
  rw [hb]
  exact normalizeJoin_props b

set_option maxRecDepth 10000 in
unseal Rat.mul Rat.add Rat.sub Rat.inv Rat.ofScientific in
/-- C10 witness: the first section of the five-line scenario. -/
theorem C10_body_normalized_witness :
    '\n' ∉ (Section.mk Level.H2 "Introduction" 1
        "This is the intro body.").full_content.data
    ∧ List.Chain' (fun a c => ¬(a.isWhitespace = true ∧ c.isWhitespace = true))
        (Section.mk Level.H2 "Introduction" 1 "This is the intro body.").full_content.data
    ∧ (∀ h, (Section.mk Level.H2 "Introduction" 1
          "This is the intro body.").full_content.data.head? = some h
        → h.isWhitespace = false)
    ∧ (∀ d, (Section.mk Level.H2 "Introduction" 1
          "This is the intro body.").full_content.data.getLast? = some d
        → d.isWhitespace = false) :=
  C10_body_normalized c2Lines
    (Section.mk Level.H2 "Introduction" 1 "This is the intro body.") (by decide)

/-! ## C7 — the title never reappears as a page-1 H1 -/

theorem r1a_outline_inv (t1 t2 t3 minH : ℚ) (title : String) (pages : List Nat)
    (recsOf : Nat → List SrcLine) :
    ∀ e ∈ pages.foldl (fun acc p => r1aStep t1 t2 t3 minH title p acc (recsOf p)) [],
      ¬(e.level = Level.H1 ∧ e.text = title ∧ e.page = 1) := by
  apply foldl_inv (fun e => ¬(e.level = Level.H1 ∧ e.text = title ∧ e.page = 1))
  · intro acc p hinv
    exact r1aStep_inv t1 t2 t3 minH title p (recsOf p) acc hinv
  · simp

/-- C7: in both programs the selected title's exact text never appears as
an H1 entry on page 1 of the output — round 1a skips that entry
explicitly, and in round 1b every page-1 line bearing the chosen title
text is removed from the stream (and in the fallback cases any page-1 line
classifiable as H1 would itself have been a title candidate). -/
theorem C7_title_not_H1_page1 (spans raws : List SrcLine) (e : Entry) (s : Section)
    (he : e ∈ (extract_document_outline spans).2)
    (hs : s ∈ (extract_document_sections raws).2) :
    ¬(e.level = Level.H1 ∧ e.text = (extract_document_outline spans).1 ∧ e.page = 1)
    ∧ ¬(s.level = Level.H1 ∧ s.text = (extract_document_sections raws).1
        ∧ s.page = 1) := by
  constructor
  · simp only [extract_document_outline] at he ⊢
    rw [mem_sSort] at he
    exact r1a_outline_inv _ _ _ _ _ _ _ e he
  · intro hcon
    obtain ⟨hlvl, htext, hpage⟩ := hcon
    rw [extract_sections_eq, mem_sSort] at hs
    simp only [extractUnsorted] at hs
    obtain ⟨_, hmeta⟩ := accum_src _ _ none [] s hs
    rcases hmeta with ⟨m, hm, _⟩ | ⟨l, hl, hcls, htextl, hpagel⟩
    · simp at hm
    · rw [hlvl] at hcls
      obtain ⟨hbold, hfont, hwc⟩ := classifyLine_H1 _ _ _ l hcls
      by_cases hemp : (preprocessLines raws).isEmpty = true
      · have hnil : preprocessLines raws = [] := List.isEmpty_iff.mp hemp
        rw [hnil] at hl
        simp [titleSplit] at hl
      · have hfalse : (preprocessLines raws).isEmpty = false := by
          revert hemp
          cases (preprocessLines raws).isEmpty <;> simp
        rw [extract_title_eq raws hfalse] at htext
        exact titleSplit_no_cand
          (r1bThresholds (maxFontSize (preprocessLines raws))).1
          (maxFontSize (preprocessLines raws)) (preprocessLines raws) l hl
          (by rw [← htextl]; exact htext)
          (by rw [← hpagel]; exact hpage)
          hfont (by omega) hbold

set_option maxRecDepth 10000 in
unseal Rat.mul Rat.add Rat.sub Rat.inv Rat.ofScientific in
/-- C7 witness: a concrete outline entry and a concrete section of the two
scenario documents. -/
theorem C7_title_not_H1_page1_witness :
    ¬((Entry.mk Level.H2 "Head" 1).level = Level.H1
        ∧ (Entry.mk Level.H2 "Head" 1).text = (extract_document_outline c7Spans).1
        ∧ (Entry.mk Level.H2 "Head" 1).page = 1)
    ∧ ¬((Section.mk Level.H2 "Introduction" 1 "This is the intro body.").level
          = Level.H1
        ∧ (Section.mk Level.H2 "Introduction" 1 "This is the intro body.").text
          = (extract_document_sections c2Lines).1
        ∧ (Section.mk Level.H2 "Introduction" 1 "This is the intro body.").page = 1) :=
  C7_title_not_H1_page1 c7Spans c2Lines (Entry.mk Level.H2 "Head" 1)
    (Section.mk Level.H2 "Introduction" 1 "This is the intro body.")
    (by decide) (by decide)
